import Mathlib

/-! TradePulse: moving averages, retrying fetch, snapshot handler, crossover signal

A shallow embedding of `backend/server.js`, `backend/utilis.js` and the signal
rule of `frontend/src/App.js`.

Numbers: a JavaScript number is modelled by `JSNumber`: a finite value is carried as the
rational it denotes, `NaN` and the two infinities are separate values.  Every
arithmetic result passes through a rounding `rnd : ℚ → JSNumber`.  The code runs with
`binary64` (IEEE 754 double precision, round to nearest, ties to even, overflow to an
infinity); `noRounding` keeps every finite result as it is and is the arithmetic of the
statements made over exact rationals.  The sign of zero is not modelled: `-0` and `+0`
compare equal, add alike and serialise alike, and nothing here divides by a zero that
could be negative.  Arrays are lists.  `null` inside a moving-average series is `none`.
-/

namespace TradePulse

/-! ## JavaScript numbers and arrays -/

/-- JavaScript number: a finite value (the rational it denotes), `NaN`, `+Infinity` or
`-Infinity`. -/
inductive JSNumber where
  | fin (q : ℚ)
  | nan
  | posInf
  | negInf
  deriving DecidableEq

/-- Exact arithmetic: every finite result is kept as it is. -/
def noRounding (q : ℚ) : JSNumber :=
  JSNumber.fin q

/-- Nearest integer to `N / D`, ties to the even one. -/
def roundHalfEven (N D : ℕ) : ℕ :=
  if 2 * (N % D) < D then N / D
  else if D < 2 * (N % D) then N / D + 1
  else if (N / D) % 2 = 0 then N / D else N / D + 1

/-- Number of binary digits of `n`, found by halving at most `fuel` times (`fuel = n`
is always enough). -/
def bitLength : ℕ → ℕ → ℕ
  | 0, _ => 0
  | fuel + 1, n => if n = 0 then 0 else bitLength fuel (n / 2) + 1

/-- The exponent `e` with `2^e ≤ n / d < 2^(e+1)`, for positive `n` and `d`. -/
def floorLog2 (n d : ℕ) : ℤ :=
  if n * 2 ^ ((bitLength d d : ℤ) - (bitLength n n : ℤ)).toNat
      < d * 2 ^ ((bitLength n n : ℤ) - (bitLength d d : ℤ)).toNat
  then (bitLength n n : ℤ) - (bitLength d d : ℤ) - 1
  else (bitLength n n : ℤ) - (bitLength d d : ℤ)

/-- Exponent of the spacing of the binary64 values around `n / d`: 52 below the exponent
of `n / d`, and `-1074` in the subnormal range. -/
def quantumExp (n d : ℕ) : ℤ :=
  max (floorLog2 n d - 52) (-1074)

/-- The magnitude `n / d` counted in spacings and rounded to the nearest integer, ties
to even. -/
def significand (n d : ℕ) : ℕ :=
  roundHalfEven (n * 2 ^ (- quantumExp n d).toNat) (d * 2 ^ (quantumExp n d).toNat)

/-- The arithmetic of the code: the binary64 value nearest to `q` (ties to even), an
infinity when the rounded magnitude reaches `2^1024`. -/
def binary64 (q : ℚ) : JSNumber :=
  if q.num = 0 then JSNumber.fin 0
  else if 2 ^ 1024 * 2 ^ (- quantumExp q.num.natAbs q.den).toNat
      ≤ significand q.num.natAbs q.den * 2 ^ (quantumExp q.num.natAbs q.den).toNat then
    (if 0 < q.num then JSNumber.posInf else JSNumber.negInf)
  else
    JSNumber.fin (Rat.divInt
      (q.num.sign * (significand q.num.natAbs q.den
        * 2 ^ (quantumExp q.num.natAbs q.den).toNat : ℕ))
      ((2 ^ (- quantumExp q.num.natAbs q.den).toNat : ℕ) : ℤ))

namespace JSNumber

/-- The `+` of two numbers; a finite sum is rounded by `rnd`. -/
def add (rnd : ℚ → JSNumber) (x y : JSNumber) : JSNumber :=
  match x with
  | fin a =>
    match y with
    | fin b => rnd (a + b)
    | nan => nan
    | posInf => posInf
    | negInf => negInf
  | nan => nan
  | posInf =>
    match y with
    | fin _ => posInf
    | nan => nan
    | posInf => posInf
    | negInf => nan
  | negInf =>
    match y with
    | fin _ => negInf
    | nan => nan
    | posInf => nan
    | negInf => negInf

/-- The `/` of a number by a window size, a non-negative integer; a finite quotient is
rounded by `rnd` (`x / 0` is an infinity of the sign of `x`, and `0 / 0` is `NaN`). -/
def divNat (rnd : ℚ → JSNumber) (x : JSNumber) (n : ℕ) : JSNumber :=
  match x with
  | fin a =>
    if n = 0 then
      (if 0 < a then posInf else if a < 0 then negInf else nan)
    else rnd (a / n)
  | nan => nan
  | posInf => posInf
  | negInf => negInf

end JSNumber

/-- Resolution of a relative index of `Array.prototype.slice`: a negative index counts
from the end (clamped at 0), a non-negative one is clamped at the length. -/
def relIndex (len : ℕ) (k : ℤ) : ℕ :=
  if k < 0 then ((len : ℤ) + k).toNat else min k.toNat len

/-- The call `xs.slice(start, stop)`. -/
def slice {α : Type} (xs : List α) (start stop : ℤ) : List α :=
  (xs.drop (relIndex xs.length start)).take
    (relIndex xs.length stop - relIndex xs.length start)

/-- The call `xs.slice(start)`: the end defaults to the length. -/
def sliceFrom {α : Type} (xs : List α) (start : ℤ) : List α :=
  slice xs start xs.length

/-! ## backend/server.js: calculateSMA -/

namespace Server

/-- The average the reducer of `calculateSMA` computes at index `idx`:
`arr.slice(idx - window + 1, idx + 1).reduce((sum, val) => sum + val, 0) / window`. -/
def windowAvg (rnd : ℚ → JSNumber) (arr : List JSNumber) (window : ℕ) (idx : ℕ) :
    JSNumber :=
  JSNumber.divNat rnd
    ((slice arr ((idx : ℤ) - window + 1) ((idx : ℤ) + 1)).foldl
      (fun sum val => JSNumber.add rnd sum val) (JSNumber.fin 0))
    window

/-- The arrow function `calculateSMA` of the `/api/btc-data` handler: a `reduce` over
the indices of `data` that appends `null` while `idx < window - 1` and the window
average afterwards. -/
def calculateSMA (rnd : ℚ → JSNumber) (data : List JSNumber) (window : ℕ) :
    List (Option JSNumber) :=
  (List.range data.length).foldl
    (fun (acc : List (Option JSNumber)) (idx : ℕ) =>
      if (idx : ℤ) < (window : ℤ) - 1 then acc ++ [none]
      else acc ++ [some (windowAvg rnd data window idx)])
    []

end Server

/-! ## backend/utilis.js: calculateSMA -/

namespace Utilis

/-- The `for (let i = windowSize - 1; i < data.length; i++)` loop of `calculateSMA`.
`left` is the number of iterations the loop still runs (`data.length - i`), `i` the loop
variable and `sma` the array built so far; each iteration pushes the average of
`data.slice(i - windowSize + 1, i + 1)`. -/
def loop (rnd : ℚ → JSNumber) (data : List JSNumber) (windowSize : ℕ) :
    ℕ → ℤ → List JSNumber → List JSNumber
  | 0, _, sma => sma
  | left + 1, i, sma =>
    loop rnd data windowSize left (i + 1)
      (sma ++ [JSNumber.divNat rnd
        ((slice data (i - windowSize + 1) (i + 1)).foldl
          (fun sum val => JSNumber.add rnd sum val) (JSNumber.fin 0))
        windowSize])

/-- The function `calculateSMA(data, windowSize)` of `utilis.js`: empty when the data is
shorter than the window, otherwise the averages from index `windowSize - 1` on. -/
def calculateSMA (rnd : ℚ → JSNumber) (data : List JSNumber) (windowSize : ℕ) :
    List JSNumber :=
  if data.length < windowSize then []
  else loop rnd data windowSize ((data.length : ℤ) - ((windowSize : ℤ) - 1)).toNat
    ((windowSize : ℤ) - 1) []

end Utilis

/-! ## backend/server.js: fetchWithRetry -/

/-- How a call of an async function ends: it returns a value, it throws, or it runs off
its end (its value is then `undefined`). -/
inductive Outcome (ε α : Type) where
  | returned (data : α)
  | threw (error : ε)
  | returnedUndefined

/-- A finished run of `fetchWithRetry`: its outcome, the number of `axios.get` calls
it made, the delays it awaited (in order) and the retry messages it logged, each as
the pair `(i + 1, maxRetries)`. -/
structure FetchRun (ε α : Type) where
  outcome : Outcome ε α
  attempts : ℕ
  delays : List ℚ
  log : List (ℕ × ℕ)

/-- The `for (let i = 0; i < maxRetries; i++)` loop of `fetchWithRetry`.  The remote
resource is `get`: its answer to the call made after `n` earlier calls is `get n`
(`Except.ok` a payload, `Except.error` a failure).  `left` is `maxRetries - i`, the
iterations left, so `left = 0` is the loop test failing. -/
def fetchLoop {ε α : Type} (get : ℕ → Except ε α) (maxRetries : ℕ) :
    ℕ → ℕ → ℚ → ℕ → List ℚ → List (ℕ × ℕ) → FetchRun ε α
  | 0, _, _, attempts, delays, log => ⟨Outcome.returnedUndefined, attempts, delays, log⟩
  | left + 1, i, retryDelay, attempts, delays, log =>
    match get attempts with
    | Except.ok data => ⟨Outcome.returned data, attempts + 1, delays, log⟩
    | Except.error error =>
      if (i : ℤ) = (maxRetries : ℤ) - 1 then
        ⟨Outcome.threw error, attempts + 1, delays, log⟩
      else
        fetchLoop get maxRetries left (i + 1) (retryDelay * 2) (attempts + 1)
          (delays ++ [retryDelay]) (log ++ [(i + 1, maxRetries)])

/-- The function `fetchWithRetry(url, maxRetries, retryDelay)`; `get` stands for
`axios.get(url)`. -/
def fetchWithRetry {ε α : Type} (get : ℕ → Except ε α) (maxRetries : ℕ) (retryDelay : ℚ) :
    FetchRun ε α :=
  fetchLoop get maxRetries maxRetries 0 retryDelay 0 [] []

/-! ## The upstream payload and `parseFloat` -/

/-- A JSON value in the place of a candle field, to the depth `parseFloat` reads it.
A number is carried as the value its literal denotes.  An array or object is carried as
what `ToString` does on it: the text it gives, or `none` when the conversion throws a
`TypeError` (an object such as `{"toString": 1}`, whose `toString` is not callable, or
an array holding one). -/
inductive Field where
  | null
  | bool (b : Bool)
  | number (x : ℚ)
  | string (s : String)
  | composite (text : Option String)

/-- A JSON value in the place of a candle record: `null`, an array of fields, or any
other value, carried as what indexing it with `4` yields (a field, or `undefined`). -/
inductive Record where
  | null
  | array (fields : List Field)
  | other (at4 : Option Field)

/-- The value of `response.data`: an array of records, or anything else. -/
inductive Payload where
  | array (records : List Record)
  | nonArray

/-- White space and line terminators that `parseFloat` skips at the start. -/
def isStrWhiteSpace (c : Char) : Bool :=
  [9, 10, 11, 12, 13, 32, 160, 5760, 8232, 8233, 8239, 8287, 12288, 65279].contains c.toNat
    || (8192 ≤ c.toNat && c.toNat ≤ 8202)

/-- Value of a run of decimal digits. -/
def digitsValue (ds : List Char) : ℕ :=
  ds.foldl (fun n c => 10 * n + (c.toNat - 48)) 0

/-- The number `q × 10^e`. -/
def scale10 (q : ℚ) (e : ℤ) : ℚ :=
  if 0 ≤ e then q * 10 ^ e.toNat else q / 10 ^ (-e).toNat

/-- Value of the exponent part at the head of `rest` (`e` or `E`, an optional sign,
at least one digit), `0` when there is none. -/
def exponentOf (rest : List Char) : ℤ :=
  match rest with
  | [] => 0
  | c :: r =>
    if c = 'e' || c = 'E' then
      match r with
      | '+' :: r2 => (digitsValue (r2.takeWhile Char.isDigit) : ℤ)
      | '-' :: r2 => - (digitsValue (r2.takeWhile Char.isDigit) : ℤ)
      | _ => (digitsValue (r.takeWhile Char.isDigit) : ℤ)
    else 0

/-- The longest unsigned decimal literal (or `Infinity`) at the head of `cs`, its value
rounded by `rnd`; `none` when there is none. -/
def parseUnsigned (rnd : ℚ → JSNumber) (cs : List Char) : Option JSNumber :=
  if "Infinity".toList.isPrefixOf cs then some JSNumber.posInf
  else
    match cs.dropWhile Char.isDigit with
    | '.' :: r2 =>
      if cs.takeWhile Char.isDigit = [] && r2.takeWhile Char.isDigit = [] then none
      else some (rnd (scale10
        ((digitsValue (cs.takeWhile Char.isDigit) : ℚ)
          + (digitsValue (r2.takeWhile Char.isDigit) : ℚ)
            / 10 ^ (r2.takeWhile Char.isDigit).length)
        (exponentOf (r2.dropWhile Char.isDigit))))
    | r1 =>
      if cs.takeWhile Char.isDigit = [] then none
      else some (rnd (scale10 (digitsValue (cs.takeWhile Char.isDigit) : ℚ)
        (exponentOf r1)))

/-- The sign change of a number. -/
def JSNumber.neg : JSNumber → JSNumber
  | JSNumber.fin q => JSNumber.fin (-q)
  | JSNumber.nan => JSNumber.nan
  | JSNumber.posInf => JSNumber.negInf
  | JSNumber.negInf => JSNumber.posInf

/-- The builtin `parseFloat` on a string: leading white space is skipped, then the
longest prefix that is a signed decimal literal is read; `NaN` when there is none. -/
def parseFloatString (rnd : ℚ → JSNumber) (cs : List Char) : JSNumber :=
  match cs.dropWhile isStrWhiteSpace with
  | '-' :: r => ((parseUnsigned rnd r).map JSNumber.neg).getD JSNumber.nan
  | '+' :: r => (parseUnsigned rnd r).getD JSNumber.nan
  | t => (parseUnsigned rnd t).getD JSNumber.nan

/-- The builtin `parseFloat` on what `k[4]` yields (the argument `none` is `undefined`):
the argument is turned into a string and parsed; a number parses back to itself.  The
result `none` is the `TypeError` thrown when the conversion to a string throws. -/
def parseFloat (rnd : ℚ → JSNumber) : Option Field → Option JSNumber
  | none => some JSNumber.nan
  | some Field.null => some JSNumber.nan
  | some (Field.bool _) => some JSNumber.nan
  | some (Field.number x) => some (rnd x)
  | some (Field.string s) => some (parseFloatString rnd s.toList)
  | some (Field.composite none) => none
  | some (Field.composite (some text)) => some (parseFloatString rnd text.toList)

/-! ## backend/server.js: the /api/btc-data handler -/

/-- The body of a success response. `currentPrice` is `prices.slice(-1)[0]`, which is
`undefined` (`none`) for no prices. -/
structure Snapshot (τ : Type) where
  prices : List JSNumber
  sma5 : List (Option JSNumber)
  sma20 : List (Option JSNumber)
  currentPrice : Option JSNumber
  lastUpdated : τ
  deriving DecidableEq

/-- What the handler answers: the snapshot, or status 500 with
`{ error: 'Failed after retries' }`. -/
inductive Response (τ : Type) where
  | json (body : Snapshot τ)
  | status500
  deriving DecidableEq

/-- The callback `k => parseFloat(k[4])`; `none` is a thrown `TypeError`: that of
indexing `null`, or that of `parseFloat`. -/
def closeOf (rnd : ℚ → JSNumber) : Record → Option JSNumber
  | Record.null => none
  | Record.array fields => parseFloat rnd fields[4]?
  | Record.other at4 => parseFloat rnd at4

/-- The call `data.map(k => parseFloat(k[4]))` on an array; `none` when the callback throws. -/
def closingPrices (rnd : ℚ → JSNumber) : List Record → Option (List JSNumber)
  | [] => some []
  | k :: rest =>
    match closeOf rnd k with
    | none => none
    | some price =>
      match closingPrices rnd rest with
      | none => none
      | some prices => some (price :: prices)

/-- The handler of `GET /api/btc-data`: everything thrown inside its `try` ends in the
status 500 answer.  `rnd` is the arithmetic, `now` is `new Date().toISOString()`. -/
def btcDataHandler {ε τ : Type} (rnd : ℚ → JSNumber) (get : ℕ → Except ε Payload)
    (now : τ) : Response τ :=
  match (fetchWithRetry get 3 1000).outcome with
  | Outcome.threw _ => Response.status500
  | Outcome.returnedUndefined => Response.status500
  | Outcome.returned Payload.nonArray => Response.status500
  | Outcome.returned (Payload.array records) =>
    match closingPrices rnd records with
    | none => Response.status500
    | some prices =>
      Response.json
        { prices := prices
          sma5 := Server.calculateSMA rnd prices 5
          sma20 := Server.calculateSMA rnd prices 20
          currentPrice := (sliceFrom prices (-1)).head?
          lastUpdated := now }

/-! ## frontend/src/App.js: getTradeSignal -/

/-- A value the dashboard reads out of a series: `undefined`, `null` or a finite number
(JSON carries no `NaN` and no infinity). -/
inductive JSVal where
  | undefined
  | null
  | number (x : ℚ)
  deriving DecidableEq

namespace JSVal

/-- The conversion `ToNumber`; `none` is `NaN`. -/
def toNumber : JSVal → Option ℚ
  | undefined => none
  | null => some 0
  | number x => some x

/-- The comparison `a <= b`. -/
def le (a b : JSVal) : Bool :=
  match a.toNumber, b.toNumber with
  | some x, some y => decide (x ≤ y)
  | _, _ => false

/-- The comparison `a < b`. -/
def lt (a b : JSVal) : Bool :=
  match a.toNumber, b.toNumber with
  | some x, some y => decide (x < y)
  | _, _ => false

/-- The comparison `a >= b`. -/
def ge (a b : JSVal) : Bool :=
  match a.toNumber, b.toNumber with
  | some x, some y => decide (y ≤ x)
  | _, _ => false

/-- The comparison `a > b`. -/
def gt (a b : JSVal) : Bool :=
  match a.toNumber, b.toNumber with
  | some x, some y => decide (y < x)
  | _, _ => false

end JSVal

/-- The element read `xs[0]`. -/
def elem0 (xs : List JSVal) : JSVal :=
  xs.head?.getD JSVal.undefined

/-- The state `marketData` of the dashboard. -/
structure MarketData where
  prices : List JSVal
  sma5 : List JSVal
  sma20 : List JSVal
  currentPrice : JSVal

/-- The `signal` strings. -/
inductive Signal where
  | BUY
  | SELL
  | HOLD
  | NEUTRAL
  deriving DecidableEq

/-- The `direction` strings; `blank` is the empty string. -/
inductive Direction where
  | up
  | down
  | blank
  deriving DecidableEq

/-- The object `{ signal, direction }`. -/
structure TradeSignal where
  signal : Signal
  direction : Direction
  deriving DecidableEq

/-- The function `getTradeSignal` of `App`; `none` is the state `marketData = null`. -/
def getTradeSignal (marketData : Option MarketData) : TradeSignal :=
  match marketData with
  | none => ⟨Signal.NEUTRAL, Direction.blank⟩
  | some md =>
    if md.sma5.length < 2 then ⟨Signal.NEUTRAL, Direction.blank⟩
    else
      let latestSma5 := elem0 (sliceFrom md.sma5 (-1))
      let prevSma5 := elem0 (sliceFrom md.sma5 (-2))
      let latestSma20 := elem0 (sliceFrom md.sma20 (-1))
      let prevSma20 := elem0 (sliceFrom md.sma20 (-2))
      if prevSma5.le prevSma20 && latestSma5.gt latestSma20 then
        ⟨Signal.BUY, Direction.up⟩
      else if prevSma5.ge prevSma20 && latestSma5.lt latestSma20 then
        ⟨Signal.SELL, Direction.down⟩
      else ⟨Signal.HOLD, Direction.blank⟩

/-- JSON form of a number: a finite number stays, `NaN` and the infinities become `null`. -/
def jsonNumber : JSNumber → JSVal
  | JSNumber.fin q => JSVal.number q
  | _ => JSVal.null

/-- JSON form of a series entry. -/
def jsonEntry : Option JSNumber → JSVal
  | none => JSVal.null
  | some x => jsonNumber x

/-- The state `fetchData` stores for a success response: the three series as the JSON
body carries them, and `currentPrice: response.data.prices.slice(-1)[0]`. -/
def marketDataOf {τ : Type} (body : Snapshot τ) : MarketData :=
  { prices := body.prices.map jsonNumber
    sma5 := body.sma5.map jsonEntry
    sma20 := body.sma20.map jsonEntry
    currentPrice := elem0 (sliceFrom (body.prices.map jsonNumber) (-1)) }

/-- The snapshot of the closing prices `P` cut after index `i`: the server's two series
over `P` (computed with the arithmetic `rnd`) and the prices, each kept up to index `i`,
as the dashboard would hold them. -/
def truncatedAt (rnd : ℚ → JSNumber) (P : List ℚ) (i : ℕ) : MarketData :=
  { prices := ((P.map JSNumber.fin).take (i + 1)).map jsonNumber
    sma5 := ((Server.calculateSMA rnd (P.map JSNumber.fin) 5).take (i + 1)).map jsonEntry
    sma20 := ((Server.calculateSMA rnd (P.map JSNumber.fin) 20).take (i + 1)).map jsonEntry
    currentPrice := elem0 (sliceFrom (((P.map JSNumber.fin).take (i + 1)).map jsonNumber) (-1)) }

/-- The signal `getTradeSignal` gives for the snapshot of `P` cut after index `i`. -/
def signalAt (rnd : ℚ → JSNumber) (P : List ℚ) (i : ℕ) : TradeSignal :=
  getTradeSignal (some (truncatedAt rnd P i))

/-! ## Inputs and measures used in the statements -/

/-- A candle record as the exchange sends it, with `close` as its closing price (field 4). -/
def candle (close : String) : Record :=
  Record.array [Field.number 1700000000000, Field.string "100.0", Field.string "101.0",
    Field.string "99.0", Field.string close, Field.string "12.5"]

/-- The numeric points of a series, in order: its entries that are numbers. -/
def numericPoints (series : List JSVal) : List ℚ :=
  series.filterMap (fun v =>
    match v with
    | JSVal.number x => some x
    | _ => none)

/-- A sequence of 100 closing prices near `2^52` with a single peak at index 14: it rises
by 1 per step up to the peak and falls by 1 per step after it.  Each price is an integer
below `2^53`, so a binary64 value. -/
def peakPrices : List ℚ :=
  (List.range 100).map
    (fun (i : ℕ) => if i ≤ 14 then (2 : ℚ) ^ 52 + (i : ℚ) else (2 : ℚ) ^ 52 + 28 - (i : ℚ))

/-- Number of defined points of a series: the entries that are numbers. -/
def definedPoints (series : List JSVal) : ℕ :=
  (series.filter (fun v => decide (v ≠ JSVal.null ∧ v ≠ JSVal.undefined))).length

/-- Sum of the `n` values `g a, g (a+1), ..., g (a+n-1)`. -/
def runSum (g : ℕ → ℚ) (a n : ℕ) : ℚ :=
  ∑ k in Finset.range n, g (a + k)

/-- Arithmetic mean of the `w` prices `P[i-w+1..i]`. -/
def windowMean (P : List ℚ) (w i : ℕ) : ℚ :=
  (∑ k in Finset.range w, P.getD (i + 1 - w + k) 0) / w

/-- Four times the 5-sum minus the 20-sum of the windows ending at `n`: it has the sign
of `sma5[n] - sma20[n]`. -/
def gap (g : ℕ → ℚ) (n : ℕ) : ℚ :=
  4 * runSum g (n - 4) 5 - runSum g (n - 19) 20

/-- A sequence of 100 closing prices with a single peak at index 50: it rises by 1 per
step up to the peak and falls by 1 per step after it. -/
def tentPrices : List ℚ :=
  (List.range 100).map (fun (i : ℕ) => if i ≤ 50 then (i : ℚ) else 100 - (i : ℚ))

/-! ## Lemmas on arrays and sums -/

theorem foldl_push_eq_map {β : Type} (g : ℕ → β) (l : List ℕ) (init : List β) :
    l.foldl (fun acc idx => acc ++ [g idx]) init = init ++ l.map g := by
  induction l generalizing init with
  | nil => simp
  | cons a t ih => simp [ih]

theorem slice_nonneg {α : Type} (xs : List α) (a b : ℕ) (hb : b ≤ xs.length) :
    slice xs (a : ℤ) (b : ℤ) = (xs.drop a).take (b - a) := by
  unfold slice relIndex
  have h1 : ¬ ((a : ℤ) < 0) := by omega
  have h2 : ¬ ((b : ℤ) < 0) := by omega
  simp only [h1, h2, if_false, Int.toNat_ofNat]
  by_cases ha : a ≤ xs.length
  · simp [Nat.min_eq_left ha, Nat.min_eq_left hb]
  · have ha2 : xs.length ≤ a := by omega
    rw [Nat.min_eq_right ha2, Nat.min_eq_left hb]
    have : xs.drop a = [] := List.drop_eq_nil_of_le ha2
    simp [this, List.drop_eq_nil_of_le (le_refl _)]

theorem foldl_add_fin (l : List ℚ) (a : ℚ) :
    (l.map JSNumber.fin).foldl (fun sum val => JSNumber.add noRounding sum val) (JSNumber.fin a)
      = JSNumber.fin (a + l.sum) := by
  induction l generalizing a with
  | nil => simp
  | cons x t ih =>
    have h : JSNumber.add noRounding (JSNumber.fin a) (JSNumber.fin x) = JSNumber.fin (a + x) := rfl
    simp only [List.map_cons, List.foldl_cons, List.sum_cons, h, ih, add_assoc]

theorem Server.calculateSMA_eq_map (rnd : ℚ → JSNumber) (data : List JSNumber) (window : ℕ) :
    Server.calculateSMA rnd data window = (List.range data.length).map
      (fun (idx : ℕ) => if (idx : ℤ) < (window : ℤ) - 1 then none
        else some (Server.windowAvg rnd data window idx)) := by
  unfold Server.calculateSMA
  have h := foldl_push_eq_map
    (fun (idx : ℕ) => if (idx : ℤ) < (window : ℤ) - 1 then (none : Option JSNumber)
        else some (Server.windowAvg rnd data window idx)) (List.range data.length) []
  simp only [List.nil_append] at h
  rw [← h]
  congr 1
  funext acc idx
  split <;> rfl

/-! ## The server's moving average (C1) -/

theorem sum_take_drop (S : List ℚ) (a w : ℕ) (h : a + w ≤ S.length) :
    ((S.drop a).take w).sum = ∑ k in Finset.range w, S.getD (a + k) 0 := by
  induction w with
  | zero => simp
  | succ n ih =>
    have hlt : n < (S.drop a).length := by simp; omega
    rw [List.sum_take_succ _ _ hlt, ih (by omega), Finset.sum_range_succ]
    congr 1
    have h2 : a + n < S.length := by omega
    simp [List.getD_eq_getElem?_getD, List.getElem?_eq_getElem h2]

theorem Server.windowAvg_fin (S : List ℚ) (w i : ℕ) (hw : 0 < w) (hi : w - 1 ≤ i)
    (hlen : i < S.length) :
    Server.windowAvg noRounding (S.map JSNumber.fin) w i
      = JSNumber.fin ((∑ k in Finset.range w, S.getD (i + 1 - w + k) 0) / w) := by
  unfold Server.windowAvg
  have hcast : ((i : ℤ) - (w : ℤ) + 1) = ((i + 1 - w : ℕ) : ℤ) := by omega
  have hcast2 : ((i : ℤ) + 1) = ((i + 1 : ℕ) : ℤ) := by omega
  rw [hcast, hcast2, slice_nonneg _ _ _ (by simp; omega)]
  have hsub : i + 1 - (i + 1 - w) = w := by omega
  rw [hsub, ← List.map_drop, ← List.map_take, foldl_add_fin, zero_add,
    sum_take_drop S (i + 1 - w) w (by omega)]
  have hw0 : w ≠ 0 := by omega
  simp [JSNumber.divNat, hw0, noRounding]

/-- C1: for a positive window `w` and a sequence `S` of at least `w` exact rationals, the
server's `calculateSMA(S, w)`, carried out in exact rational arithmetic, has the length
of `S`, is `null` at the indices `0..w-2`,
and at every index `i` with `w-1 ≤ i < len(S)` holds the arithmetic mean of
`S[i-w+1..i]`. -/
theorem calculateSMA_server_spec (S : List ℚ) (w : ℕ) (hw : 0 < w) (hlen : w ≤ S.length) :
    (Server.calculateSMA noRounding (S.map JSNumber.fin) w).length = S.length
    ∧ (∀ i, i + 1 < w → (Server.calculateSMA noRounding (S.map JSNumber.fin) w)[i]? = some none)
    ∧ (∀ i, w - 1 ≤ i → i < S.length →
        (Server.calculateSMA noRounding (S.map JSNumber.fin) w)[i]?
          = some (some (JSNumber.fin
              ((∑ k in Finset.range w, S.getD (i + 1 - w + k) 0) / w)))) := by
  rw [Server.calculateSMA_eq_map]
  refine ⟨by simp, ?_, ?_⟩
  · intro i hi
    have h1 : i < S.length := by omega
    have h2 : (i : ℤ) < (w : ℤ) - 1 := by omega
    simp [h1, h2]
  · intro i hi hlt
    have h2 : ¬ ((i : ℤ) < (w : ℤ) - 1) := by omega
    simp [hlt, h2, Server.windowAvg_fin S w i hw hi hlt]

theorem calculateSMA_server_spec_witness :
    (0 < 2 ∧ 2 ≤ [(1 : ℚ), 3, 5].length)
    ∧ (Server.calculateSMA noRounding ([(1 : ℚ), 3, 5].map JSNumber.fin) 2).length = [(1 : ℚ), 3, 5].length
    ∧ (∀ i, i + 1 < 2 →
        (Server.calculateSMA noRounding ([(1 : ℚ), 3, 5].map JSNumber.fin) 2)[i]? = some none)
    ∧ (∀ i, 2 - 1 ≤ i → i < [(1 : ℚ), 3, 5].length →
        (Server.calculateSMA noRounding ([(1 : ℚ), 3, 5].map JSNumber.fin) 2)[i]?
          = some (some (JSNumber.fin
              ((∑ k in Finset.range 2, [(1 : ℚ), 3, 5].getD (i + 1 - 2 + k) 0) / (2 : ℕ))))) :=
  ⟨⟨by decide, by decide⟩, calculateSMA_server_spec [1, 3, 5] 2 (by decide) (by decide)⟩

/-! ## The retrying fetch (C3, C4) -/

theorem fetchLoop_all_fail {ε α : Type} (get : ℕ → Except ε α) (err : ℕ → ε) (M : ℕ)
    (hfail : ∀ n, get n = Except.error (err n)) :
    ∀ (left i : ℕ) (d : ℚ) (a : ℕ) (ds : List ℚ) (lg : List (ℕ × ℕ)),
      left + i = M → 0 < left →
      (fetchLoop get M left i d a ds lg).attempts = a + left
      ∧ (fetchLoop get M left i d a ds lg).delays
          = ds ++ (List.range (left - 1)).map (fun j => 2 ^ j * d)
      ∧ (fetchLoop get M left i d a ds lg).outcome = Outcome.threw (err (a + left - 1)) := by
  intro left
  induction left with
  | zero => intro i d a ds lg _ h; omega
  | succ n ih =>
    intro i d a ds lg hM _
    unfold fetchLoop
    rw [hfail a]
    by_cases hlast : (i : ℤ) = (M : ℤ) - 1
    · have hn : n = 0 := by omega
      subst hn
      simp [hlast]
    · have hn : 0 < n := by omega
      obtain ⟨h1, h2, h3⟩ := ih (i + 1) (d * 2) (a + 1) (ds ++ [d]) (lg ++ [(i + 1, M)])
        (by omega) hn
      simp only [hlast, if_false]
      refine ⟨by rw [h1]; omega, ?_, ?_⟩
      · rw [h2]
        obtain ⟨m, rfl⟩ : ∃ m, n = m + 1 := ⟨n - 1, by omega⟩
        simp only [Nat.add_sub_cancel, List.append_assoc, List.singleton_append]
        rw [List.range_succ_eq_map]
        simp [pow_succ, Function.comp_def, mul_comm, mul_left_comm, mul_assoc]
      · rw [h3]
        congr 2
        omega

theorem fetchLoop_fail_then_ok {ε α : Type} (get : ℕ → Except ε α) (M : ℕ) (payload : α) :
    ∀ (k left i : ℕ) (d : ℚ) (a : ℕ) (ds : List ℚ) (lg : List (ℕ × ℕ)),
      left + i = M → k < left →
      (∀ n, a ≤ n → n < a + k → ∃ e, get n = Except.error e) →
      get (a + k) = Except.ok payload →
      (fetchLoop get M left i d a ds lg).attempts = a + k + 1
      ∧ (fetchLoop get M left i d a ds lg).delays
          = ds ++ (List.range k).map (fun j => 2 ^ j * d)
      ∧ (fetchLoop get M left i d a ds lg).outcome = Outcome.returned payload := by
  intro k
  induction k with
  | zero =>
    intro left i d a ds lg _ hk _ hok
    obtain ⟨n, rfl⟩ : ∃ n, left = n + 1 := ⟨left - 1, by omega⟩
    unfold fetchLoop
    rw [Nat.add_zero] at hok
    rw [hok]
    simp
  | succ k ih =>
    intro left i d a ds lg hM hk hfail hok
    obtain ⟨n, rfl⟩ : ∃ n, left = n + 1 := ⟨left - 1, by omega⟩
    obtain ⟨e, he⟩ := hfail a (le_refl _) (by omega)
    unfold fetchLoop
    rw [he]
    have hlast : ¬ ((i : ℤ) = (M : ℤ) - 1) := by omega
    simp only [hlast, if_false]
    obtain ⟨h1, h2, h3⟩ := ih n (i + 1) (d * 2) (a + 1) (ds ++ [d]) (lg ++ [(i + 1, M)])
      (by omega) (by omega) (fun m hm1 hm2 => hfail m (by omega) (by omega))
      (by rw [← hok]; congr 1; omega)
    refine ⟨by rw [h1]; omega, ?_, h3⟩
    rw [h2, List.range_succ_eq_map]
    simp [pow_succ, Function.comp_def, mul_comm, mul_left_comm, mul_assoc]

theorem sum_doubling (d : ℚ) (n : ℕ) :
    ((List.range n).map (fun j => 2 ^ j * d)).sum = d * (2 ^ n - 1) := by
  induction n with
  | zero => simp
  | succ n ih =>
    rw [List.range_succ, List.map_append, List.sum_append, ih]
    simp [pow_succ]
    ring

/-- C3: for `maxAttempts ≥ 1` and any initial delay, against a resource whose every
attempt fails `fetchWithRetry` makes exactly `maxAttempts` attempts and then ends in one
throw (of the last attempt's failure) with no payload. -/
theorem fetchWithRetry_always_failing {ε α : Type} (get : ℕ → Except ε α) (err : ℕ → ε)
    (maxAttempts : ℕ) (d : ℚ) (hmax : 1 ≤ maxAttempts)
    (hfail : ∀ n, get n = Except.error (err n)) :
    (fetchWithRetry get maxAttempts d).attempts = maxAttempts
    ∧ (fetchWithRetry get maxAttempts d).outcome = Outcome.threw (err (maxAttempts - 1)) := by
  obtain ⟨h1, _, h3⟩ := fetchLoop_all_fail get err maxAttempts hfail maxAttempts 0 d 0 [] []
    (by omega) (by omega)
  unfold fetchWithRetry
  refine ⟨by rw [h1]; omega, ?_⟩
  rw [h3]
  congr 2
  omega

theorem fetchWithRetry_always_failing_witness :
    (1 ≤ 3 ∧ ∀ n : ℕ, (fun m => (Except.error m : Except ℕ Unit)) n = Except.error (id n))
    ∧ (fetchWithRetry (fun m => (Except.error m : Except ℕ Unit)) 3 1000).attempts = 3
    ∧ (fetchWithRetry (fun m => (Except.error m : Except ℕ Unit)) 3 1000).outcome
        = Outcome.threw (id (3 - 1)) :=
  ⟨⟨by decide, fun _ => rfl⟩,
    fetchWithRetry_always_failing (fun m => (Except.error m : Except ℕ Unit)) id 3 1000
      (by decide) (fun _ => rfl)⟩

/-- C4: when the first `k < maxAttempts` attempts fail and attempt `k+1` succeeds,
`fetchWithRetry` returns that attempt's payload after exactly `k+1` attempts, and the
delays it waited are `d, 2d, 4d, ..., 2^(k-1)·d` in this order (none when `k = 0`). -/
theorem fetchWithRetry_fails_then_succeeds {ε α : Type} (get : ℕ → Except ε α)
    (payload : α) (maxAttempts k : ℕ) (d : ℚ) (hk : k < maxAttempts)
    (hfail : ∀ n, n < k → ∃ e, get n = Except.error e)
    (hok : get k = Except.ok payload) :
    (fetchWithRetry get maxAttempts d).outcome = Outcome.returned payload
    ∧ (fetchWithRetry get maxAttempts d).attempts = k + 1
    ∧ (fetchWithRetry get maxAttempts d).delays = (List.range k).map (fun j => 2 ^ j * d) := by
  obtain ⟨h1, h2, h3⟩ := fetchLoop_fail_then_ok get maxAttempts payload k maxAttempts 0 d 0 [] []
    (by omega) hk (fun n _ hn => hfail n (by omega)) (by rw [Nat.zero_add]; exact hok)
  unfold fetchWithRetry
  refine ⟨h3, by rw [h1]; omega, by rw [h2]; simp⟩

theorem fetchWithRetry_fails_then_succeeds_witness :
    (2 < 3
      ∧ (∀ n, n < 2 → ∃ e, (fun m => if m < 2 then (Except.error m : Except ℕ String)
            else Except.ok "candles") n = Except.error e)
      ∧ (fun m => if m < 2 then (Except.error m : Except ℕ String)
            else Except.ok "candles") 2 = Except.ok "candles")
    ∧ (fetchWithRetry (fun m => if m < 2 then (Except.error m : Except ℕ String)
          else Except.ok "candles") 3 1000).outcome = Outcome.returned "candles"
    ∧ (fetchWithRetry (fun m => if m < 2 then (Except.error m : Except ℕ String)
          else Except.ok "candles") 3 1000).attempts = 2 + 1
    ∧ (fetchWithRetry (fun m => if m < 2 then (Except.error m : Except ℕ String)
          else Except.ok "candles") 3 1000).delays
        = (List.range 2).map (fun j => 2 ^ j * (1000 : ℚ)) :=
  ⟨⟨by decide, fun n hn => ⟨n, by simp [hn]⟩, by simp⟩,
    fetchWithRetry_fails_then_succeeds
      (fun m => if m < 2 then (Except.error m : Except ℕ String) else Except.ok "candles")
      "candles" 3 2 1000 (by decide) (fun n hn => ⟨n, by simp [hn]⟩) (by simp)⟩

/-! ## Total delay (C10) and undersized input (C9) -/

/-- C10, as stated, fails: with `maxAttempts = 3` and `d = 1000` the delays waited before
giving up are 1000 and 2000, whose sum 3000 is not `1000·(2^3 − 1) = 7000`. -/
theorem total_delay_claim_fails :
    (fetchWithRetry (fun _ => (Except.error () : Except Unit Unit)) 3 1000).delays
        = [1000, 2000]
    ∧ ¬ ((fetchWithRetry (fun _ => (Except.error () : Except Unit Unit)) 3 1000).delays.sum
        = 1000 * (2 ^ 3 - 1)) := by
  have h : (fetchWithRetry (fun _ => (Except.error () : Except Unit Unit)) 3 1000).delays
      = [1000, 2000] := by
    simp [fetchWithRetry, fetchLoop]
    norm_num
  rw [h]
  refine ⟨rfl, ?_⟩
  norm_num

/-- C10, amended: for `maxAttempts ≥ 1`, when every attempt fails the delays
`fetchWithRetry` waits before giving up sum to `d·(2^(maxAttempts−1) − 1)`: no delay
follows the last failed attempt. -/
theorem fetchWithRetry_total_delay {ε α : Type} (get : ℕ → Except ε α) (err : ℕ → ε)
    (maxAttempts : ℕ) (d : ℚ) (hmax : 1 ≤ maxAttempts)
    (hfail : ∀ n, get n = Except.error (err n)) :
    (fetchWithRetry get maxAttempts d).delays.sum = d * (2 ^ (maxAttempts - 1) - 1) := by
  have h := (fetchLoop_all_fail get err maxAttempts hfail maxAttempts 0 d 0 [] []
    (by omega) (by omega)).2.1
  unfold fetchWithRetry
  rw [h, List.nil_append, sum_doubling]

theorem fetchWithRetry_total_delay_witness :
    (1 ≤ 3 ∧ ∀ n : ℕ, (fun _ => (Except.error () : Except Unit Unit)) n
        = Except.error ((fun _ => ()) n))
    ∧ (fetchWithRetry (fun _ => (Except.error () : Except Unit Unit)) 3 1000).delays.sum
        = 1000 * (2 ^ (3 - 1) - 1) :=
  ⟨⟨by decide, fun _ => rfl⟩,
    fetchWithRetry_total_delay (fun _ => (Except.error () : Except Unit Unit)) (fun _ => ())
      3 1000 (by decide) (fun _ => rfl)⟩

/-- C9: in every arithmetic, for a positive window `w` and a sequence `S` shorter than
`w`, the server's `calculateSMA(S, w)` is `len(S)` entries that are all `null`, the `calculateSMA(S, w)` of
`utilis.js` is empty, and for `S = []` both are empty. -/
theorem calculateSMA_undersized (rnd : ℚ → JSNumber) (S : List JSNumber) (w : ℕ) (hw : 0 < w)
    (hlen : S.length < w) :
    Server.calculateSMA rnd S w = List.replicate S.length none
    ∧ Utilis.calculateSMA rnd S w = []
    ∧ Server.calculateSMA rnd [] w = []
    ∧ Utilis.calculateSMA rnd [] w = [] := by
  refine ⟨?_, by simp [Utilis.calculateSMA, hlen], by simp [Server.calculateSMA],
    by simp [Utilis.calculateSMA, hw]⟩
  rw [Server.calculateSMA_eq_map]
  apply List.ext_getElem
  · simp
  · intro i h1 h2
    have hi : i < S.length := by simpa using h1
    have h3 : (i : ℤ) < (w : ℤ) - 1 := by omega
    simp [h3]

theorem calculateSMA_undersized_witness :
    (0 < 5 ∧ [JSNumber.fin 7, JSNumber.nan].length < 5)
    ∧ Server.calculateSMA binary64 [JSNumber.fin 7, JSNumber.nan] 5
        = List.replicate [JSNumber.fin 7, JSNumber.nan].length none
    ∧ Utilis.calculateSMA binary64 [JSNumber.fin 7, JSNumber.nan] 5 = []
    ∧ Server.calculateSMA binary64 [] 5 = []
    ∧ Utilis.calculateSMA binary64 [] 5 = [] :=
  ⟨⟨by decide, by decide⟩,
    calculateSMA_undersized binary64 [JSNumber.fin 7, JSNumber.nan] 5 (by decide) (by decide)⟩

/-! ## The crossover signal (C2, C7) -/

theorem sliceFrom_neg {α : Type} (xs : List α) (n : ℕ) (hn : 0 < n) :
    sliceFrom xs (-(n : ℤ)) = xs.drop (xs.length - n) := by
  unfold sliceFrom slice relIndex
  have h1 : (-(n : ℤ)) < 0 := by omega
  have h2 : ¬ ((xs.length : ℤ) < 0) := by omega
  simp only [h1, h2, if_true, if_false, Int.toNat_ofNat, Nat.min_self]
  have h3 : ((xs.length : ℤ) + -(n : ℤ)).toNat = xs.length - n := by omega
  rw [h3]
  apply List.take_of_length_le
  simp

theorem elem0_sliceFrom_neg (xs : List JSVal) (n : ℕ) (hn : 0 < n) :
    elem0 (sliceFrom xs (-(n : ℤ))) = (xs[xs.length - n]?).getD JSVal.undefined := by
  unfold elem0
  rw [sliceFrom_neg xs n hn, List.head?_drop]

theorem elem0_last_two (pre : List JSVal) (a b : JSVal) :
    elem0 (sliceFrom (pre ++ [a, b]) (-1)) = b
    ∧ elem0 (sliceFrom (pre ++ [a, b]) (-2)) = a := by
  have h1 := elem0_sliceFrom_neg (pre ++ [a, b]) 1 (by omega)
  have h2 := elem0_sliceFrom_neg (pre ++ [a, b]) 2 (by omega)
  have e1 : (pre ++ [a, b]).length - 1 = pre.length + 1 := by simp
  have e2 : (pre ++ [a, b]).length - 2 = pre.length := by simp
  rw [e1] at h1
  rw [e2] at h2
  have g1 : (pre ++ [a, b])[pre.length + 1]? = some b := by
    rw [List.getElem?_append_right (by omega)]
    simp
  have g2 : (pre ++ [a, b])[pre.length]? = some a := by
    rw [List.getElem?_append_right (by omega)]
    simp
  rw [g1] at h1
  rw [g2] at h2
  exact ⟨h1, h2⟩

/-- C2, as stated, fails: `sma5 = [10, 12, null]` and `sma20 = [11, 11, null]` each have
two numeric points, the last two being `(10, 12)` and `(11, 11)` with `10 ≤ 11` and
`12 > 11`, so the rule on the last two numeric points gives BUY; `getTradeSignal` reads
the last two entries, of which the latest is `null` in both series, and gives HOLD. -/
theorem crossover_claim_fails :
    numericPoints [JSVal.number 10, JSVal.number 12, JSVal.null] = [10, 12]
    ∧ numericPoints [JSVal.number 11, JSVal.number 11, JSVal.null] = [11, 11]
    ∧ ((10 : ℚ) ≤ 11 ∧ (12 : ℚ) > 11)
    ∧ getTradeSignal (some
        { prices := [JSVal.number 9, JSVal.number 15, JSVal.null]
          sma5 := [JSVal.number 10, JSVal.number 12, JSVal.null]
          sma20 := [JSVal.number 11, JSVal.number 11, JSVal.null]
          currentPrice := JSVal.null })
        = ⟨Signal.HOLD, Direction.blank⟩
    ∧ getTradeSignal (some
        { prices := [JSVal.number 9, JSVal.number 15, JSVal.null]
          sma5 := [JSVal.number 10, JSVal.number 12, JSVal.null]
          sma20 := [JSVal.number 11, JSVal.number 11, JSVal.null]
          currentPrice := JSVal.null })
        ≠ ⟨Signal.BUY, Direction.up⟩ := by
  decide!

/-- C2, amended: when the last two entries of `sma5` are the numbers `prev5, cur5` and
the last two entries of `sma20` are the numbers `prev20, cur20`, `getTradeSignal` gives
BUY/up if `prev5 ≤ prev20` and `cur5 > cur20`, otherwise SELL/down if `prev5 ≥ prev20`
and `cur5 < cur20`, otherwise HOLD with no direction; so equality at the prior pair
followed by `cur5 > cur20` is BUY. -/
theorem getTradeSignal_crossover (prices pre5 pre20 : List JSVal) (currentPrice : JSVal)
    (prev5 cur5 prev20 cur20 : ℚ) :
    getTradeSignal (some
      { prices := prices
        sma5 := pre5 ++ [JSVal.number prev5, JSVal.number cur5]
        sma20 := pre20 ++ [JSVal.number prev20, JSVal.number cur20]
        currentPrice := currentPrice })
      = if prev5 ≤ prev20 ∧ cur5 > cur20 then ⟨Signal.BUY, Direction.up⟩
        else if prev5 ≥ prev20 ∧ cur5 < cur20 then ⟨Signal.SELL, Direction.down⟩
        else ⟨Signal.HOLD, Direction.blank⟩ := by
  obtain ⟨a1, a2⟩ := elem0_last_two pre5 (JSVal.number prev5) (JSVal.number cur5)
  obtain ⟨b1, b2⟩ := elem0_last_two pre20 (JSVal.number prev20) (JSVal.number cur20)
  have hlen : ¬ ((pre5 ++ [JSVal.number prev5, JSVal.number cur5]).length < 2) := by simp
  simp only [getTradeSignal, hlen, if_false, a1, a2, b1, b2, JSVal.le, JSVal.gt, JSVal.ge,
    JSVal.lt, JSVal.toNumber, Bool.and_eq_true, decide_eq_true_eq, gt_iff_lt, ge_iff_le]

/-- C7, as stated, fails: for three candles the handler answers a snapshot whose `sma5`
is three `null` entries, so `sma5` has no defined point, yet `getTradeSignal` on the
state the dashboard stores for it is HOLD and not NEUTRAL. -/
theorem neutral_claim_fails :
    btcDataHandler binary64
        (fun _ => (Except.ok (Payload.array [candle "1", candle "2", candle "3"])
          : Except Unit Payload)) ()
      = Response.json
          { prices := [JSNumber.fin 1, JSNumber.fin 2, JSNumber.fin 3]
            sma5 := [none, none, none]
            sma20 := [none, none, none]
            currentPrice := some (JSNumber.fin 3)
            lastUpdated := () }
    ∧ definedPoints (marketDataOf
          ({ prices := [JSNumber.fin 1, JSNumber.fin 2, JSNumber.fin 3]
             sma5 := [none, none, none]
             sma20 := [none, none, none]
             currentPrice := some (JSNumber.fin 3)
             lastUpdated := () } : Snapshot Unit)).sma5 = 0
    ∧ getTradeSignal (some (marketDataOf
          ({ prices := [JSNumber.fin 1, JSNumber.fin 2, JSNumber.fin 3]
             sma5 := [none, none, none]
             sma20 := [none, none, none]
             currentPrice := some (JSNumber.fin 3)
             lastUpdated := () } : Snapshot Unit)))
        = ⟨Signal.HOLD, Direction.blank⟩ := by
  decide!

/-- C7, amended: for every present snapshot `getTradeSignal` gives NEUTRAL (with no
direction) if and only if `sma5` has fewer than 2 entries, `null` entries counted; and
it gives one of BUY, SELL, HOLD if and only if `sma5` has at least 2 entries. -/
theorem getTradeSignal_neutral_iff (md : MarketData) :
    (getTradeSignal (some md) = ⟨Signal.NEUTRAL, Direction.blank⟩ ↔ md.sma5.length < 2)
    ∧ (((getTradeSignal (some md)).signal = Signal.BUY
          ∨ (getTradeSignal (some md)).signal = Signal.SELL
          ∨ (getTradeSignal (some md)).signal = Signal.HOLD) ↔ 2 ≤ md.sma5.length) := by
  by_cases h : md.sma5.length < 2
  · have h2 : ¬ (2 ≤ md.sma5.length) := by omega
    simp [getTradeSignal, h, h2]
  · have h2 : 2 ≤ md.sma5.length := by omega
    simp only [getTradeSignal, h, if_false, h2, iff_true, iff_false]
    split_ifs <;> simp

/-! ## The snapshot handler (C5, C6) -/

theorem closeOf_eq_none_iff (rnd : ℚ → JSNumber) (r : Record) :
    closeOf rnd r = none ↔
      r = Record.null
      ∨ (∃ fields, r = Record.array fields ∧ fields[4]? = some (Field.composite none))
      ∨ r = Record.other (some (Field.composite none)) := by
  cases r with
  | null => simp [closeOf]
  | array fields =>
    simp only [closeOf, false_or, or_false, Record.array.injEq, exists_eq_left', reduceCtorEq]
    cases h : fields[4]? with
    | none => simp [parseFloat]
    | some f =>
      cases f with
      | composite text => cases text <;> simp [parseFloat]
      | _ => simp [parseFloat]
  | other at4 =>
    simp only [closeOf, false_or, Record.other.injEq, reduceCtorEq, exists_false, and_false]
    cases at4 with
    | none => simp [parseFloat]
    | some f =>
      cases f with
      | composite text => cases text <;> simp [parseFloat]
      | _ => simp [parseFloat]

theorem closingPrices_eq_none_iff (rnd : ℚ → JSNumber) (records : List Record) :
    closingPrices rnd records = none ↔ ∃ r, r ∈ records ∧ closeOf rnd r = none := by
  induction records with
  | nil => simp [closingPrices]
  | cons k rest ih =>
    unfold closingPrices
    cases hk : closeOf rnd k with
    | none => simp [hk]
    | some price =>
      cases hr : closingPrices rnd rest with
      | none =>
        obtain ⟨r, hr1, hr2⟩ := ih.mp hr
        constructor
        · intro _
          exact ⟨r, List.mem_cons_of_mem _ hr1, hr2⟩
        · intro _
          rfl
      | some prices =>
        constructor
        · intro hcon
          exact absurd hcon (by simp)
        · rintro ⟨r, hr1, hr2⟩
          rcases List.mem_cons.mp hr1 with h | h
          · rw [h, hk] at hr2
            exact absurd hr2 (by simp)
          · have := ih.mpr ⟨r, h, hr2⟩
            rw [hr] at this
            exact absurd this (by simp)

theorem closingPrices_some (rnd : ℚ → JSNumber) (records : List Record) :
    ∀ prices, closingPrices rnd records = some prices →
      records.map (closeOf rnd) = prices.map some := by
  induction records with
  | nil => intro prices h; simp [closingPrices] at h; subst h; simp
  | cons k rest ih =>
    intro prices h
    unfold closingPrices at h
    cases hk : closeOf rnd k with
    | none => simp [hk] at h
    | some price =>
      cases hr : closingPrices rnd rest with
      | none => simp [hk, hr] at h
      | some ps =>
        simp [hk, hr] at h
        subst h
        simp [hk, ih ps hr]

theorem head_sliceFrom_last {α : Type} (xs : List α) :
    (sliceFrom xs (-1)).head? = xs.getLast? := by
  have h := sliceFrom_neg xs 1 (by omega)
  simp only [Nat.cast_one] at h
  rw [h, List.head?_drop, List.getLast?_eq_getElem?]

theorem btcDataHandler_json {ε τ : Type} (rnd : ℚ → JSNumber) (get : ℕ → Except ε Payload)
    (now : τ) (body : Snapshot τ) (h : btcDataHandler rnd get now = Response.json body) :
    ∃ records prices,
      (fetchWithRetry get 3 1000).outcome = Outcome.returned (Payload.array records)
      ∧ closingPrices rnd records = some prices
      ∧ body = { prices := prices
                 sma5 := Server.calculateSMA rnd prices 5
                 sma20 := Server.calculateSMA rnd prices 20
                 currentPrice := (sliceFrom prices (-1)).head?
                 lastUpdated := now } := by
  unfold btcDataHandler at h
  split at h
  · exact absurd h (by simp)
  · exact absurd h (by simp)
  · exact absurd h (by simp)
  · rename_i records hout
    split at h
    · exact absurd h (by simp)
    · rename_i prices hp
      refine ⟨records, prices, hout, hp, ?_⟩
      injection h with h
      exact h.symm

/-- C5: whenever the `/api/btc-data` handler answers a snapshot, whatever the payload,
the number of candles and the arithmetic, `currentPrice` is the last element of `prices`
(both are `undefined` for no prices) and `prices`, `sma5` and `sma20` have the same
length. -/
theorem snapshot_invariant {ε τ : Type} (rnd : ℚ → JSNumber) (get : ℕ → Except ε Payload)
    (now : τ) (body : Snapshot τ) (h : btcDataHandler rnd get now = Response.json body) :
    body.currentPrice = body.prices.getLast?
    ∧ body.prices.length = body.sma5.length
    ∧ body.sma5.length = body.sma20.length := by
  obtain ⟨records, prices, _, _, rfl⟩ := btcDataHandler_json rnd get now body h
  refine ⟨head_sliceFrom_last prices, ?_, ?_⟩ <;> simp [Server.calculateSMA_eq_map]

theorem snapshot_invariant_witness :
    btcDataHandler binary64
        (fun _ => (Except.ok (Payload.array [candle "7", candle "9.5"]) : Except Unit Payload)) ()
      = Response.json
          { prices := [JSNumber.fin 7, JSNumber.fin (19 / 2)]
            sma5 := [none, none]
            sma20 := [none, none]
            currentPrice := some (JSNumber.fin (19 / 2))
            lastUpdated := () }
    ∧ (({ prices := [JSNumber.fin 7, JSNumber.fin (19 / 2)]
          sma5 := [none, none]
          sma20 := [none, none]
          currentPrice := some (JSNumber.fin (19 / 2))
          lastUpdated := () } : Snapshot Unit).currentPrice
        = ({ prices := [JSNumber.fin 7, JSNumber.fin (19 / 2)]
             sma5 := [none, none]
             sma20 := [none, none]
             currentPrice := some (JSNumber.fin (19 / 2))
             lastUpdated := () } : Snapshot Unit).prices.getLast?
      ∧ ({ prices := [JSNumber.fin 7, JSNumber.fin (19 / 2)]
           sma5 := [none, none]
           sma20 := [none, none]
           currentPrice := some (JSNumber.fin (19 / 2))
           lastUpdated := () } : Snapshot Unit).prices.length
        = ({ prices := [JSNumber.fin 7, JSNumber.fin (19 / 2)]
             sma5 := [none, none]
             sma20 := [none, none]
             currentPrice := some (JSNumber.fin (19 / 2))
             lastUpdated := () } : Snapshot Unit).sma5.length
      ∧ ({ prices := [JSNumber.fin 7, JSNumber.fin (19 / 2)]
           sma5 := [none, none]
           sma20 := [none, none]
           currentPrice := some (JSNumber.fin (19 / 2))
           lastUpdated := () } : Snapshot Unit).sma5.length
        = ({ prices := [JSNumber.fin 7, JSNumber.fin (19 / 2)]
             sma5 := [none, none]
             sma20 := [none, none]
             currentPrice := some (JSNumber.fin (19 / 2))
             lastUpdated := () } : Snapshot Unit).sma20.length) :=
  have h : btcDataHandler binary64
        (fun _ => (Except.ok (Payload.array [candle "7", candle "9.5"]) : Except Unit Payload)) ()
      = Response.json
          { prices := [JSNumber.fin 7, JSNumber.fin (19 / 2)]
            sma5 := [none, none]
            sma20 := [none, none]
            currentPrice := some (JSNumber.fin (19 / 2))
            lastUpdated := () } := by
    decide!
  ⟨h, snapshot_invariant binary64 _ () _ h⟩

theorem JSNumber.add_nan_right (rnd : ℚ → JSNumber) (x : JSNumber) :
    JSNumber.add rnd x JSNumber.nan = JSNumber.nan := by
  cases x <;> rfl

theorem foldl_add_nan_init (rnd : ℚ → JSNumber) (l : List JSNumber) :
    l.foldl (fun sum val => JSNumber.add rnd sum val) JSNumber.nan = JSNumber.nan := by
  induction l with
  | nil => rfl
  | cons x t ih =>
    have h : JSNumber.add rnd JSNumber.nan x = JSNumber.nan := rfl
    simp only [List.foldl_cons, h, ih]

theorem foldl_add_of_mem_nan (rnd : ℚ → JSNumber) (l : List JSNumber) (init : JSNumber)
    (h : JSNumber.nan ∈ l) :
    l.foldl (fun sum val => JSNumber.add rnd sum val) init = JSNumber.nan := by
  induction l generalizing init with
  | nil => simp at h
  | cons x t ih =>
    simp only [List.foldl_cons]
    rcases List.mem_cons.mp h with hx | ht
    · rw [← hx, JSNumber.add_nan_right, foldl_add_nan_init]
    · exact ih _ ht

theorem Server.windowAvg_nan (rnd : ℚ → JSNumber) (prices : List JSNumber) (w i j : ℕ)
    (hi : prices[i]? = some JSNumber.nan) (hw : w ≤ j + 1) (hij : i ≤ j) (hji : j < i + w)
    (hj : j < prices.length) :
    Server.windowAvg rnd prices w j = JSNumber.nan := by
  unfold Server.windowAvg
  have hcast : ((j : ℤ) - (w : ℤ) + 1) = ((j + 1 - w : ℕ) : ℤ) := by omega
  have hcast2 : ((j : ℤ) + 1) = ((j + 1 : ℕ) : ℤ) := by omega
  rw [hcast, hcast2, slice_nonneg _ _ _ (by omega)]
  have hsub : j + 1 - (j + 1 - w) = w := by omega
  rw [hsub]
  have hmem : JSNumber.nan ∈ (prices.drop (j + 1 - w)).take w := by
    rw [List.mem_iff_getElem?]
    refine ⟨i - (j + 1 - w), ?_⟩
    rw [List.getElem?_take_of_lt (by omega), List.getElem?_drop]
    have : j + 1 - w + (i - (j + 1 - w)) = i := by omega
    rw [this, hi]
  rw [foldl_add_of_mem_nan _ _ _ hmem]
  rfl

theorem Server.calculateSMA_nan (rnd : ℚ → JSNumber) (prices : List JSNumber) (w i j : ℕ)
    (hw : 0 < w) (hi : prices[i]? = some JSNumber.nan) (hij : i ≤ j) (hji : j < i + w)
    (hj : j < prices.length) :
    (Server.calculateSMA rnd prices w)[j]?
      = some (if j < w - 1 then none else some JSNumber.nan) := by
  rw [Server.calculateSMA_eq_map]
  by_cases h : (j : ℤ) < (w : ℤ) - 1
  · have h2 : j < w - 1 := by omega
    simp [hj, h, h2]
  · have h2 : ¬ (j < w - 1) := by omega
    simp [hj, h, h2, Server.windowAvg_nan rnd prices w i j hi (by omega) hij hji hj]

theorem closingPrices_getElem (rnd : ℚ → JSNumber) (records : List Record)
    (prices : List JSNumber) (h : closingPrices rnd records = some prices) (i : ℕ)
    (r : Record) (x : JSNumber) (hr : records[i]? = some r) (hx : closeOf rnd r = some x) :
    prices[i]? = some x := by
  have hmap := closingPrices_some rnd records prices h
  have h1 : (records.map (closeOf rnd))[i]? = some (some x) := by simp [hr, hx]
  rw [hmap] at h1
  simp only [List.getElem?_map] at h1
  cases hp : prices[i]? with
  | none => simp [hp] at h1
  | some y => simp [hp] at h1; rw [h1]

/-- C6, as stated, fails, in both of its parts.  A retrieved payload of two candles, one
whose close field is the text `abc` and one with only two fields, is answered with a
snapshot (prices `NaN`, `NaN`), not with the failure result.  And a retrieved payload of
five candles whose last close is the text `5abc`, not a numeric string, is answered with
a snapshot that holds the price 5 and the average `sma5[4] = 3` derived from it. -/
theorem malformed_payload_claim_fails :
    btcDataHandler binary64
        (fun _ => (Except.ok (Payload.array
          [candle "abc", Record.array [Field.string "1", Field.string "2"]])
          : Except Unit Payload)) ()
      = Response.json
          { prices := [JSNumber.nan, JSNumber.nan]
            sma5 := [none, none]
            sma20 := [none, none]
            currentPrice := some JSNumber.nan
            lastUpdated := () }
    ∧ btcDataHandler binary64
        (fun _ => (Except.ok (Payload.array
          [candle "1", candle "2", candle "3", candle "4", candle "5abc"])
          : Except Unit Payload)) ()
      = Response.json
          { prices := [JSNumber.fin 1, JSNumber.fin 2, JSNumber.fin 3, JSNumber.fin 4,
              JSNumber.fin 5]
            sma5 := [none, none, none, none, some (JSNumber.fin 3)]
            sma20 := [none, none, none, none, none]
            currentPrice := some (JSNumber.fin 5)
            lastUpdated := () } := by
  decide!

/-- C6, amended: for a payload the fetcher retrieves, in every arithmetic, the handler
yields the single failure result when the payload is not an array or when the callback
`k => parseFloat(k[4])` throws on one of its records (`closeOf rnd r = none`: the
record is `null`, or its field 4 is an object or array whose conversion to a string
throws, see `closeOf_eq_none_iff`); otherwise it answers
a snapshot whose prices are `parseFloat(k[4])` of the records in order, and for each
candle record with fewer than 5 fields, or whose close field (index 4) `parseFloat`
reads as `NaN`, the price at that record's index is `NaN` and every `sma5` / `sma20`
entry whose window covers that index is `null` (before the window is full) or `NaN`:
no number in the snapshot is derived from such a record. -/
theorem handler_on_retrieved_payload {ε τ : Type} (rnd : ℚ → JSNumber)
    (get : ℕ → Except ε Payload) (now : τ) (payload : Payload)
    (h : (fetchWithRetry get 3 1000).outcome = Outcome.returned payload) :
    (payload = Payload.nonArray → btcDataHandler rnd get now = Response.status500)
    ∧ (∀ records, payload = Payload.array records →
        ((∃ r, r ∈ records ∧ closeOf rnd r = none) →
          btcDataHandler rnd get now = Response.status500)
        ∧ ((∀ r, r ∈ records → closeOf rnd r ≠ none) →
            ∃ body, btcDataHandler rnd get now = Response.json body
              ∧ records.map (closeOf rnd) = body.prices.map some
              ∧ ∀ i fields, records[i]? = some (Record.array fields) →
                  (fields.length < 5 ∨ parseFloat rnd fields[4]? = some JSNumber.nan) →
                  body.prices[i]? = some JSNumber.nan
                  ∧ ∀ j, i ≤ j → j < records.length →
                      (j < i + 5 →
                        body.sma5[j]? = some (if j < 4 then none else some JSNumber.nan))
                      ∧ (j < i + 20 →
                        body.sma20[j]? = some (if j < 19 then none else some JSNumber.nan)))) := by
  refine ⟨?_, ?_⟩
  · intro hp
    subst hp
    simp [btcDataHandler, h]
  · intro records hp
    subst hp
    refine ⟨?_, ?_⟩
    · intro hthrow
      have hc := (closingPrices_eq_none_iff rnd records).mpr hthrow
      simp [btcDataHandler, h, hc]
    · intro hnone
      cases hc : closingPrices rnd records with
      | none =>
        obtain ⟨r, hr1, hr2⟩ := (closingPrices_eq_none_iff rnd records).mp hc
        exact absurd hr2 (hnone r hr1)
      | some prices =>
        refine ⟨{ prices := prices
                  sma5 := Server.calculateSMA rnd prices 5
                  sma20 := Server.calculateSMA rnd prices 20
                  currentPrice := (sliceFrom prices (-1)).head?
                  lastUpdated := now }, by simp only [btcDataHandler, h, hc],
          closingPrices_some rnd records prices hc, ?_⟩
        intro i fields hr hbad
        have hclose : closeOf rnd (Record.array fields) = some JSNumber.nan := by
          rcases hbad with hlt | hnan
          · have : fields[4]? = none := List.getElem?_eq_none (by omega)
            simp [closeOf, this, parseFloat]
          · simp [closeOf, hnan]
        have hprice := closingPrices_getElem rnd records prices hc i _ _ hr hclose
        have hlen : prices.length = records.length := by
          have := congrArg List.length (closingPrices_some rnd records prices hc)
          simpa using this.symm
        refine ⟨hprice, ?_⟩
        intro j hij hj
        exact ⟨fun h5 => Server.calculateSMA_nan rnd prices 5 i j (by omega) hprice hij h5
            (by omega),
          fun h20 => Server.calculateSMA_nan rnd prices 20 i j (by omega) hprice hij h20
            (by omega)⟩

theorem handler_on_retrieved_payload_witness :
    (fetchWithRetry (fun _ => (Except.ok (Payload.array
        [candle "1", candle "2", candle "abc", candle "4", candle "5"])
        : Except Unit Payload)) 3 1000).outcome
      = Outcome.returned (Payload.array
        [candle "1", candle "2", candle "abc", candle "4", candle "5"])
    ∧ ∃ body : Snapshot Unit,
        btcDataHandler binary64
          (fun _ => (Except.ok (Payload.array
            [candle "1", candle "2", candle "abc", candle "4", candle "5"])
            : Except Unit Payload)) ()
          = Response.json body
        ∧ body.prices[2]? = some JSNumber.nan
        ∧ body.sma5[4]? = some (some JSNumber.nan)
        ∧ body.sma20[4]? = some none := by
  have h : (fetchWithRetry (fun _ => (Except.ok (Payload.array
        [candle "1", candle "2", candle "abc", candle "4", candle "5"])
        : Except Unit Payload)) 3 1000).outcome
      = Outcome.returned (Payload.array
        [candle "1", candle "2", candle "abc", candle "4", candle "5"]) := by
    simp [fetchWithRetry, fetchLoop]
  have hnone : ∀ r, r ∈ [candle "1", candle "2", candle "abc", candle "4", candle "5"] →
      closeOf binary64 r ≠ none := by
    intro r hr
    simp only [List.mem_cons, List.mem_singleton, List.not_mem_nil, or_false] at hr
    rcases hr with rfl | rfl | rfl | rfl | rfl <;> simp [closeOf, candle, parseFloat]
  obtain ⟨body, hbody, _, hrec⟩ :=
    ((handler_on_retrieved_payload binary64
      (fun _ => (Except.ok (Payload.array
        [candle "1", candle "2", candle "abc", candle "4", candle "5"])
        : Except Unit Payload)) ()
      (Payload.array [candle "1", candle "2", candle "abc", candle "4", candle "5"]) h).2
      [candle "1", candle "2", candle "abc", candle "4", candle "5"] rfl).2 hnone
  have hbad := hrec 2 [Field.number 1700000000000, Field.string "100.0", Field.string "101.0",
    Field.string "99.0", Field.string "abc", Field.string "12.5"] (by simp [candle])
    (Or.inr (by decide!))
  have h4 := hbad.2 4 (by omega) (by simp)
  exact ⟨h, body, hbody, hbad.1, by simpa using h4.1 (by omega), by simpa using h4.2 (by omega)⟩

/-! ## A single peak gives at most one BUY and one SELL (C8) -/

theorem runSum_shift (g : ℕ → ℚ) (a n : ℕ) :
    runSum g a n + g (a + n) = g a + runSum g (a + 1) n := by
  unfold runSum
  rw [← Finset.sum_range_succ, Finset.sum_range_succ', add_comm]
  congr 1
  apply Finset.sum_congr rfl
  intro k _
  congr 1
  omega

theorem runSum_split (g : ℕ → ℚ) (a n m : ℕ) :
    runSum g a (n + m) = runSum g a n + runSum g (a + n) m := by
  unfold runSum
  rw [Finset.sum_range_add]
  congr 1
  apply Finset.sum_congr rfl
  intro k _
  congr 1
  omega

theorem runSum_ge (g : ℕ → ℚ) (a n : ℕ) (c : ℚ) (h : ∀ k, k < n → c ≤ g (a + k)) :
    n * c ≤ runSum g a n := by
  unfold runSum
  have := Finset.sum_le_sum (s := Finset.range n) (f := fun _ => c) (g := fun k => g (a + k))
    (fun k hk => h k (Finset.mem_range.mp hk))
  simpa using this

theorem runSum_lt (g : ℕ → ℚ) (a n : ℕ) (c : ℚ) (hn : 0 < n)
    (h : ∀ k, k < n → g (a + k) < c) :
    runSum g a n < n * c := by
  unfold runSum
  have := Finset.sum_lt_sum_of_nonempty (s := Finset.range n) (f := fun k => g (a + k))
    (g := fun _ => c) (Finset.nonempty_range_iff.mpr (by omega))
    (fun k hk => h k (Finset.mem_range.mp hk))
  simpa using this

theorem rising_of_steps (g : ℕ → ℚ) (p : ℕ) (hup : ∀ k, k < p → g k < g (k + 1)) :
    ∀ a b, a < b → b ≤ p → g a < g b := by
  intro a b hab
  induction b with
  | zero => omega
  | succ n ih =>
    intro hb
    by_cases h : a = n
    · subst h
      exact hup a (by omega)
    · exact lt_trans (ih (by omega) (by omega)) (hup n (by omega))

theorem falling_of_steps (g : ℕ → ℚ) (p top : ℕ)
    (hdown : ∀ k, p ≤ k → k + 1 ≤ top → g (k + 1) < g k) :
    ∀ a b, p ≤ a → a < b → b ≤ top → g b < g a := by
  intro a b hpa hab
  induction b with
  | zero => omega
  | succ n ih =>
    intro hb
    by_cases h : a = n
    · subst h
      exact hdown a hpa hb
    · exact lt_trans (hdown n (by omega) hb) (ih (by omega) (by omega))

theorem gap_at (g : ℕ → ℚ) (m : ℕ) :
    gap g (m + 20) = 3 * runSum g (m + 16) 5 - runSum g (m + 1) 15
    ∧ gap g (m + 19) = 3 * runSum g (m + 15) 5 - runSum g m 15 := by
  unfold gap
  have e1 : m + 20 - 4 = m + 16 := by omega
  have e2 : m + 20 - 19 = m + 1 := by omega
  have e3 : m + 19 - 4 = m + 15 := by omega
  have e4 : m + 19 - 19 = m := by omega
  rw [e1, e2, e3, e4]
  have s1 := runSum_split g (m + 1) 15 5
  have s2 := runSum_split g m 15 5
  have e5 : m + 1 + 15 = m + 16 := by omega
  rw [e5] at s1
  norm_num at s1 s2
  rw [s1, s2]
  constructor <;> ring

theorem gap_step (g : ℕ → ℚ) (m : ℕ) :
    gap g (m + 20) - gap g (m + 19) = 3 * g (m + 20) - 4 * g (m + 15) + g m := by
  obtain ⟨h1, h2⟩ := gap_at g m
  rw [h1, h2]
  have a := runSum_shift g (m + 15) 5
  have b := runSum_shift g m 15
  have e1 : m + 15 + 5 = m + 20 := by omega
  have e2 : m + 15 + 1 = m + 16 := by omega
  rw [e1, e2] at a
  linarith

/-- On a sequence that rises strictly up to index `p` and falls strictly after it (up to
index 99), the gap never passes from `≤ 0` at one index to `≥ 0` at the next while
growing. -/
theorem gap_no_upward_crossing (g : ℕ → ℚ) (p m : ℕ) (hm : m + 20 ≤ 99)
    (hup : ∀ a b, a < b → b ≤ p → g a < g b)
    (hdn : ∀ a b, p ≤ a → a < b → b ≤ 99 → g b < g a) :
    ¬ (gap g (m + 19) ≤ 0 ∧ 0 ≤ gap g (m + 20) ∧ gap g (m + 19) < gap g (m + 20)) := by
  rintro ⟨hlo, hhi, hgrow⟩
  have hstep := gap_step g m
  obtain ⟨h20, h19⟩ := gap_at g m
  by_cases hcase : p ≤ m + 15
  · -- the window of 5 lies after the peak
    have hlast : g (m + 20) < g (m + 15) := hdn _ _ hcase (by omega) (by omega)
    have hfirst : g (m + 15) < g m := by linarith
    have h5 : runSum g (m + 16) 5 < (5 : ℕ) * g (m + 15) :=
      runSum_lt g (m + 16) 5 _ (by omega)
        (fun k hk => hdn _ _ hcase (by omega) (by omega))
    have h15 : (15 : ℕ) * g (m + 15) ≤ runSum g (m + 1) 15 := by
      apply runSum_ge
      intro k hk
      by_cases hk14 : k = 14
      · subst hk14
        exact le_of_eq rfl
      · by_cases hp : p ≤ m + 1 + k
        · exact le_of_lt (hdn _ _ hp (by omega) (by omega))
        · exact le_of_lt (lt_trans hfirst (hup _ _ (by omega) (by omega)))
    push_cast at h5 h15
    linarith
  · -- index `m + 15` lies before the peak
    have hfirst : g m < g (m + 15) := hup _ _ (by omega) (by omega)
    have hlast : g (m + 15) < g (m + 20) := by linarith
    have h5 : (5 : ℕ) * g (m + 15) ≤ runSum g (m + 15) 5 := by
      apply runSum_ge
      intro k hk
      by_cases hk0 : k = 0
      · subst hk0
        exact le_of_eq rfl
      · by_cases hp : m + 15 + k ≤ p
        · exact le_of_lt (hup _ _ (by omega) hp)
        · exact le_of_lt (lt_trans hlast (hdn _ _ (by omega) (by omega) (by omega)))
    have h15 : runSum g m 15 < (15 : ℕ) * g (m + 15) :=
      runSum_lt g m 15 _ (by omega) (fun k hk => hup _ _ (by omega) (by omega))
    push_cast at h5 h15
    linarith

theorem Server.calculateSMA_getElem_fin (S : List ℚ) (w i : ℕ) (hw : 0 < w)
    (hi : w - 1 ≤ i) (hlt : i < S.length) :
    (Server.calculateSMA noRounding (S.map JSNumber.fin) w)[i]?
      = some (some (JSNumber.fin (windowMean S w i))) := by
  rw [Server.calculateSMA_eq_map]
  have h2 : ¬ ((i : ℤ) < (w : ℤ) - 1) := by omega
  simp [hlt, h2, Server.windowAvg_fin S w i hw hi hlt, windowMean]

theorem truncated_series_getElem (P : List ℚ) (w i n : ℕ) (hw : 0 < w) (hn : w - 1 ≤ n)
    (hni : n ≤ i) (hi : i < P.length) :
    (((Server.calculateSMA noRounding (P.map JSNumber.fin) w).take (i + 1)).map jsonEntry)[n]?
      = some (JSVal.number (windowMean P w n)) := by
  rw [List.getElem?_map, List.getElem?_take_of_lt (by omega),
    Server.calculateSMA_getElem_fin P w n hw hn (by omega)]
  rfl

theorem truncated_series_length (P : List ℚ) (w i : ℕ) (hi : i < P.length) :
    (((Server.calculateSMA noRounding (P.map JSNumber.fin) w).take (i + 1)).map jsonEntry).length
      = i + 1 := by
  rw [Server.calculateSMA_eq_map]
  simp
  omega

theorem getTradeSignal_eval (md : MarketData) (hlen : 2 ≤ md.sma5.length)
    (prev5 cur5 prev20 cur20 : ℚ)
    (h1 : elem0 (sliceFrom md.sma5 (-1)) = JSVal.number cur5)
    (h2 : elem0 (sliceFrom md.sma5 (-2)) = JSVal.number prev5)
    (h3 : elem0 (sliceFrom md.sma20 (-1)) = JSVal.number cur20)
    (h4 : elem0 (sliceFrom md.sma20 (-2)) = JSVal.number prev20) :
    getTradeSignal (some md)
      = if prev5 ≤ prev20 ∧ cur5 > cur20 then ⟨Signal.BUY, Direction.up⟩
        else if prev5 ≥ prev20 ∧ cur5 < cur20 then ⟨Signal.SELL, Direction.down⟩
        else ⟨Signal.HOLD, Direction.blank⟩ := by
  have hl : ¬ (md.sma5.length < 2) := by omega
  simp only [getTradeSignal, hl, if_false, h1, h2, h3, h4, JSVal.le, JSVal.gt, JSVal.ge,
    JSVal.lt, JSVal.toNumber, Bool.and_eq_true, decide_eq_true_eq, gt_iff_lt, ge_iff_le]

theorem signalAt_eq (P : List ℚ) (i : ℕ) (h20 : 20 ≤ i) (hi : i < P.length) :
    signalAt noRounding P i
      = if windowMean P 5 (i - 1) ≤ windowMean P 20 (i - 1)
            ∧ windowMean P 5 i > windowMean P 20 i then ⟨Signal.BUY, Direction.up⟩
        else if windowMean P 5 (i - 1) ≥ windowMean P 20 (i - 1)
            ∧ windowMean P 5 i < windowMean P 20 i then ⟨Signal.SELL, Direction.down⟩
        else ⟨Signal.HOLD, Direction.blank⟩ := by
  unfold signalAt
  have l5 := truncated_series_length P 5 i hi
  have l20 := truncated_series_length P 20 i hi
  apply getTradeSignal_eval
  · show 2 ≤ (((Server.calculateSMA noRounding (P.map JSNumber.fin) 5).take (i + 1)).map jsonEntry).length
    omega
  · show elem0 (sliceFrom (((Server.calculateSMA noRounding (P.map JSNumber.fin) 5).take (i + 1)).map
      jsonEntry) (-1)) = _
    have h := elem0_sliceFrom_neg (((Server.calculateSMA noRounding (P.map JSNumber.fin) 5).take
      (i + 1)).map jsonEntry) 1 (by omega)
    simp only [Nat.cast_one] at h
    rw [h, l5, Nat.add_sub_cancel, truncated_series_getElem P 5 i i (by omega) (by omega)
      (le_refl _) hi]
    rfl
  · show elem0 (sliceFrom (((Server.calculateSMA noRounding (P.map JSNumber.fin) 5).take (i + 1)).map
      jsonEntry) (-2)) = _
    have h := elem0_sliceFrom_neg (((Server.calculateSMA noRounding (P.map JSNumber.fin) 5).take
      (i + 1)).map jsonEntry) 2 (by omega)
    simp only [Nat.cast_ofNat] at h
    have e : i + 1 - 2 = i - 1 := by omega
    rw [h, l5, e, truncated_series_getElem P 5 i (i - 1) (by omega) (by omega)
      (by omega) hi]
    rfl
  · show elem0 (sliceFrom (((Server.calculateSMA noRounding (P.map JSNumber.fin) 20).take (i + 1)).map
      jsonEntry) (-1)) = _
    have h := elem0_sliceFrom_neg (((Server.calculateSMA noRounding (P.map JSNumber.fin) 20).take
      (i + 1)).map jsonEntry) 1 (by omega)
    simp only [Nat.cast_one] at h
    rw [h, l20, Nat.add_sub_cancel, truncated_series_getElem P 20 i i (by omega) (by omega)
      (le_refl _) hi]
    rfl
  · show elem0 (sliceFrom (((Server.calculateSMA noRounding (P.map JSNumber.fin) 20).take (i + 1)).map
      jsonEntry) (-2)) = _
    have h := elem0_sliceFrom_neg (((Server.calculateSMA noRounding (P.map JSNumber.fin) 20).take
      (i + 1)).map jsonEntry) 2 (by omega)
    simp only [Nat.cast_ofNat] at h
    have e : i + 1 - 2 = i - 1 := by omega
    rw [h, l20, e, truncated_series_getElem P 20 i (i - 1) (by omega) (by omega)
      (by omega) hi]
    rfl

theorem windowMean_sub (P : List ℚ) (n : ℕ) (hn : 19 ≤ n) :
    windowMean P 5 n - windowMean P 20 n = gap (fun k => P.getD k 0) n / 20 := by
  unfold windowMean gap runSum
  have e1 : n + 1 - 5 = n - 4 := by omega
  have e2 : n + 1 - 20 = n - 19 := by omega
  rw [e1, e2]
  push_cast
  ring

theorem signalAt_buy (P : List ℚ) (i : ℕ) (h20 : 20 ≤ i) (hi : i < P.length)
    (h : (signalAt noRounding P i).signal = Signal.BUY) :
    gap (fun k => P.getD k 0) (i - 1) ≤ 0 ∧ 0 < gap (fun k => P.getD k 0) i := by
  rw [signalAt_eq P i h20 hi] at h
  have s1 := windowMean_sub P (i - 1) (by omega)
  have s2 := windowMean_sub P i (by omega)
  by_cases c1 : windowMean P 5 (i - 1) ≤ windowMean P 20 (i - 1)
      ∧ windowMean P 5 i > windowMean P 20 i
  · obtain ⟨a, b⟩ := c1
    constructor <;> linarith
  · rw [if_neg c1] at h
    by_cases c2 : windowMean P 5 (i - 1) ≥ windowMean P 20 (i - 1)
        ∧ windowMean P 5 i < windowMean P 20 i
    · rw [if_pos c2] at h
      exact absurd h (by decide)
    · rw [if_neg c2] at h
      exact absurd h (by decide)

theorem signalAt_sell (P : List ℚ) (i : ℕ) (h20 : 20 ≤ i) (hi : i < P.length)
    (h : (signalAt noRounding P i).signal = Signal.SELL) :
    0 ≤ gap (fun k => P.getD k 0) (i - 1) ∧ gap (fun k => P.getD k 0) i < 0 := by
  rw [signalAt_eq P i h20 hi] at h
  have s1 := windowMean_sub P (i - 1) (by omega)
  have s2 := windowMean_sub P i (by omega)
  by_cases c1 : windowMean P 5 (i - 1) ≤ windowMean P 20 (i - 1)
      ∧ windowMean P 5 i > windowMean P 20 i
  · rw [if_pos c1] at h
    exact absurd h (by decide)
  · rw [if_neg c1] at h
    by_cases c2 : windowMean P 5 (i - 1) ≥ windowMean P 20 (i - 1)
        ∧ windowMean P 5 i < windowMean P 20 i
    · obtain ⟨a, b⟩ := c2
      constructor <;> linarith
    · rw [if_neg c2] at h
      exact absurd h (by decide)

theorem gap_stays_negative (g : ℕ → ℚ) (p i : ℕ) (h19 : 19 ≤ i)
    (hup : ∀ a b, a < b → b ≤ p → g a < g b)
    (hdn : ∀ a b, p ≤ a → a < b → b ≤ 99 → g b < g a)
    (hneg : gap g i < 0) :
    ∀ n, i ≤ n → n ≤ 99 → gap g n < 0 := by
  intro n hin
  induction n, hin using Nat.le_induction with
  | base => intro _; exact hneg
  | succ n hn ih =>
    intro h99
    have hprev := ih (by omega)
    by_contra hcon
    have hge : 0 ≤ gap g (n + 1) := not_lt.mp hcon
    have key := gap_no_upward_crossing g p (n - 19) (by omega) hup hdn
    have e1 : n - 19 + 19 = n := by omega
    have e2 : n - 19 + 20 = n + 1 := by omega
    rw [e1, e2] at key
    exact key ⟨le_of_lt hprev, hge, lt_of_lt_of_le hprev hge⟩

theorem sell_at_most_once (P : List ℚ) (p : ℕ) (hlen : P.length = 100)
    (hup : ∀ a b, a < b → b ≤ p → P.getD a 0 < P.getD b 0)
    (hdn : ∀ a b, p ≤ a → a < b → b ≤ 99 → P.getD b 0 < P.getD a 0)
    (i j : ℕ) (hi : 20 ≤ i) (hij : i < j) (hj : j ≤ 99)
    (si : (signalAt noRounding P i).signal = Signal.SELL) (sj : (signalAt noRounding P j).signal = Signal.SELL) :
    False := by
  have a := (signalAt_sell P i hi (by omega) si).2
  have b := (signalAt_sell P j (by omega) (by omega) sj).1
  have c := gap_stays_negative (fun k => P.getD k 0) p i (by omega) hup hdn a (j - 1)
    (by omega) (by omega)
  linarith

/-- C8, as stated, fails on the averages as the server computes them, in binary64: the
100 prices `peakPrices` are binary64 values, rise strictly up to index 14 and fall
strictly after it, and the signal of the snapshot cut after index 21 is SELL and so is
the one cut after index 23 (the rounded `sma5`, `sma20` less `2^52` are `10, 10` at
index 20, `9, 10` at 21, `8, 8` at 22 and `7, 8` at 23). -/
theorem single_peak_claim_fails :
    peakPrices.length = 100
    ∧ (∀ x, x ∈ peakPrices → binary64 x = JSNumber.fin x)
    ∧ (∀ k, k < 14 → peakPrices.getD k 0 < peakPrices.getD (k + 1) 0)
    ∧ (∀ k, k < 99 → 14 ≤ k → peakPrices.getD (k + 1) 0 < peakPrices.getD k 0)
    ∧ (signalAt binary64 peakPrices 21).signal = Signal.SELL
    ∧ (signalAt binary64 peakPrices 23).signal = Signal.SELL := by
  decide!

/-- C8, amended: for 100 closing prices that rise strictly up to a peak index `p` and fall
strictly after it (any `p`, so also a sequence that only rises or only falls), with
`sma5` and `sma20` the server's `calculateSMA` carried out in exact rational arithmetic
(no rounding of the window sums and quotients) and `signalAt noRounding P i` the result of
`getTradeSignal` on the snapshot cut after index `i`, among the indices `20 ≤ i ≤ 99` at
most one gives BUY and at most one gives SELL. -/
theorem single_peak_signals (P : List ℚ) (p : ℕ) (hlen : P.length = 100)
    (hup : ∀ k, k < p → P.getD k 0 < P.getD (k + 1) 0)
    (hdown : ∀ k, p ≤ k → k + 1 ≤ 99 → P.getD (k + 1) 0 < P.getD k 0) :
    (∀ i j, 20 ≤ i → i ≤ 99 → 20 ≤ j → j ≤ 99 →
      (signalAt noRounding P i).signal = Signal.BUY → (signalAt noRounding P j).signal = Signal.BUY → i = j)
    ∧ (∀ i j, 20 ≤ i → i ≤ 99 → 20 ≤ j → j ≤ 99 →
      (signalAt noRounding P i).signal = Signal.SELL → (signalAt noRounding P j).signal = Signal.SELL → i = j) := by
  have hup2 := rising_of_steps (fun k => P.getD k 0) p hup
  have hdn2 := falling_of_steps (fun k => P.getD k 0) p 99 hdown
  constructor
  · intro i j hi hi99 _ _ si _
    exfalso
    obtain ⟨a, b⟩ := signalAt_buy P i hi (by omega) si
    have key := gap_no_upward_crossing (fun k => P.getD k 0) p (i - 20) (by omega) hup2 hdn2
    have e1 : i - 20 + 19 = i - 1 := by omega
    have e2 : i - 20 + 20 = i := by omega
    rw [e1, e2] at key
    exact key ⟨a, le_of_lt b, lt_of_le_of_lt a b⟩
  · intro i j hi hi99 hj hj99 si sj
    rcases lt_trichotomy i j with h | h | h
    · exact (sell_at_most_once P p hlen hup2 hdn2 i j hi h hj99 si sj).elim
    · exact h
    · exact (sell_at_most_once P p hlen hup2 hdn2 j i hj h hi99 sj si).elim

theorem tentPrices_getD (k : ℕ) (hk : k < 100) :
    tentPrices.getD k 0 = if k ≤ 50 then (k : ℚ) else 100 - (k : ℚ) := by
  unfold tentPrices
  rw [List.getD_eq_getElem?_getD, List.getElem?_map, List.getElem?_range hk]
  rfl

theorem single_peak_signals_witness :
    (tentPrices.length = 100
      ∧ (∀ k, k < 50 → tentPrices.getD k 0 < tentPrices.getD (k + 1) 0)
      ∧ (∀ k, 50 ≤ k → k + 1 ≤ 99 → tentPrices.getD (k + 1) 0 < tentPrices.getD k 0))
    ∧ (∀ i j, 20 ≤ i → i ≤ 99 → 20 ≤ j → j ≤ 99 →
        (signalAt noRounding tentPrices i).signal = Signal.BUY →
        (signalAt noRounding tentPrices j).signal = Signal.BUY → i = j)
    ∧ (∀ i j, 20 ≤ i → i ≤ 99 → 20 ≤ j → j ≤ 99 →
        (signalAt noRounding tentPrices i).signal = Signal.SELL →
        (signalAt noRounding tentPrices j).signal = Signal.SELL → i = j) := by
  have hlen : tentPrices.length = 100 := by simp [tentPrices]
  have hup : ∀ k, k < 50 → tentPrices.getD k 0 < tentPrices.getD (k + 1) 0 := by
    intro k hk
    rw [tentPrices_getD k (by omega), tentPrices_getD (k + 1) (by omega)]
    have h1 : k ≤ 50 := by omega
    have h2 : k + 1 ≤ 50 := by omega
    simp [h1, h2]
  have hdown : ∀ k, 50 ≤ k → k + 1 ≤ 99 →
      tentPrices.getD (k + 1) 0 < tentPrices.getD k 0 := by
    intro k hk hk2
    rw [tentPrices_getD k (by omega), tentPrices_getD (k + 1) (by omega)]
    have h2 : ¬ (k + 1 ≤ 50) := by omega
    by_cases h1 : k ≤ 50
    · have : k = 50 := by omega
      subst this
      simp [h2]
      norm_num
    · simp [h1, h2]
  exact ⟨⟨hlen, hup, hdown⟩, single_peak_signals tentPrices 50 hlen hup hdown⟩

end TradePulse
